import Mathlib

set_option maxRecDepth 100000

/-!
Verification development for the incremental photo-scraper engine in
`selenium_photos_scraper.py` (function `scrape_photos_selenium`).

The engine is shallowly embedded: the external world (browser, HTTP, clock)
is abstracted into per-item environments, while every decision the Python
code makes (URL parsing, selector heuristics, dedup checks, counters,
limit checks, the scroll loop and its stopping policy) is translated
faithfully from the source.  Strings are handled through explicit
`List Char` operations mirroring the Python string methods used.
-/

namespace Scraper

/-- Does `needle` occur at the head of `hay`?  (Python `str.startswith`.) -/
def listLeads : List Char → List Char → Bool
  | [], _ => true
  | _ :: _, [] => false
  | a :: as, b :: bs => a == b && listLeads as bs

/-- Does `needle` occur anywhere inside `hay`?  (Python `in` on strings.) -/
def listHas (needle : List Char) : List Char → Bool
  | [] => needle.isEmpty
  | c :: rest => listLeads needle (c :: rest) || listHas needle rest

/-- Characters after the last occurrence of `sep` (Python `s.split(sep)[-1]`). -/
def lastSeg (l : List Char) (sep : Char) : List Char :=
  ((l.reverse.takeWhile (fun c => c != sep)).reverse)

/-- Characters before the first occurrence of `sep` (Python `s.split(sep)[0]`). -/
def firstSeg (l : List Char) (sep : Char) : List Char :=
  l.takeWhile (fun c => c != sep)

/-- First match of the regex `fbid=(\d+)` in a character list: the first
position where `fbid=` is followed by at least one digit; the group is the
maximal digit run there.  (Source line 199: `re.search(r'fbid=(\d+)', photo_url)`.) -/
def fbidChars : List Char → Option (List Char)
  | [] => none
  | c :: rest =>
    let here := c :: rest
    let ds := (here.drop 5).takeWhile Char.isDigit
    if listLeads ['f', 'b', 'i', 'd', '='] here && !ds.isEmpty then some ds
    else fbidChars rest

/-- Photo id extracted from a gallery-link URL via `fbid=(\d+)`. -/
def fbidOf (url : String) : Option String :=
  (fbidChars url.toList).map String.mk

/-- First match of the regex `/(\d{10,})_` in a character list: a `/` followed
by a maximal run of at least ten digits followed by `_`.  (Source line 274:
`re.search(r'/(\d{10,})_', img_url)`.) -/
def imgIdChars : List Char → Option (List Char)
  | [] => none
  | c :: rest =>
    let ds := rest.takeWhile Char.isDigit
    if c == '/' && decide (10 ≤ ds.length) && listLeads ['_'] (rest.drop ds.length) then
      some ds
    else imgIdChars rest

/-- Photo id extracted from an image URL via `/(\d{10,})_`. -/
def imgIdOf (imgUrl : String) : Option String :=
  (imgIdChars imgUrl.toList).map String.mk

/-- Zero-padded decimal rendering of width four (Python `f"{n:04d}"`). -/
def pad4 (n : Nat) : String :=
  if n < 10 then "000" ++ toString n
  else if n < 100 then "00" ++ toString n
  else if n < 1000 then "0" ++ toString n
  else toString n

/-- Photo id used for the stored file, exactly as the source derives it
(lines 196-278): the `fbid` group of the link URL if present, else the
`/(\d{10,})_` group of the image URL, else `photo_{downloaded_count+1:04d}`. -/
def photoIdOf (photoUrl imgUrl : String) (downloadedCount : Nat) : String :=
  match fbidOf photoUrl with
  | some p => p
  | none =>
    match imgIdOf imgUrl with
    | some p => p
    | none => "photo_" ++ pad4 (downloadedCount + 1)

/-- The segment of the image URL the source inspects for an extension:
`img_url.split('/')[-1].split('?')[0]` (line 282). -/
def extSeg (imgUrl : String) : List Char :=
  firstSeg (lastSeg imgUrl.toList '/') '?'

/-- The recognized image extensions (line 284). -/
def knownExts : List String := ["jpg", "jpeg", "png", "gif", "webp"]

/-- File extension chosen for the stored file, translated from lines 280-285:
default `.jpg`; if the last path segment (before any query string) contains a
dot and its lower-cased final dot-segment is a recognized image extension,
use that extension instead. -/
def extOf (imgUrl : String) : String :=
  let seg := extSeg imgUrl
  if seg.contains '.' then
    let u := (lastSeg seg '.').map Char.toLower
    if knownExts.any (fun t => t.toList == u) then "." ++ String.mk u
    else ".jpg"
  else ".jpg"

/-- Does `extSeg` carry a recognized extension?  (The condition under which
the source picks a non-default extension, lines 282-284.) -/
def recognizedSeg (imgUrl : String) : Bool :=
  (extSeg imgUrl).contains '.' &&
    knownExts.any (fun t => t.toList == (lastSeg (extSeg imgUrl) '.').map Char.toLower)

/-- Python `Path.stem` for a file name that contains no path separator:
the name without its final dot-suffix. -/
def stemOf (s : String) : String :=
  let l := s.toList
  if l.contains '.' then String.mk (((l.reverse.dropWhile (fun c => c != '.')).drop 1).reverse)
  else s

/-- One displayed image element observed while inspecting an item (lines
232-244).  `raises` models the element whose attribute/size read throws
(the per-image `except: continue`); `attrW`/`attrH` are the `width`/`height`
attributes when truthy (absent or empty string gives `none`, the Python `or`
fallback); `boxW`/`boxH` are the rendered `img.size` box; `src` is the `src`
attribute (`none` when the attribute is missing). -/
structure Cand where
  raises : Bool
  attrW : Option Nat
  attrH : Option Nat
  boxW : Nat
  boxH : Nat
  src : Option String

/-- Candidate area `width * height` with the attribute-or-box fallback
(lines 234-238). -/
def candArea (c : Cand) : Nat :=
  (c.attrW.getD c.boxW) * (c.attrH.getD c.boxH)

/-- The fold of lines 229-244: walk the strategy's images keeping the
largest seen so far (`largest`, `largest_size`), skipping images whose
reads raise. -/
def pickLargestAux : List Cand → Option Cand × Nat → Option Cand × Nat
  | [], acc => acc
  | c :: cs, acc =>
    if c.raises then pickLargestAux cs acc
    else if candArea c > acc.2 then pickLargestAux cs (some c, candArea c)
    else pickLargestAux cs acc

/-- Largest candidate of one strategy result set, started from `(None, 0)`. -/
def pickLargest (st : List Cand) : Option Cand × Nat :=
  pickLargestAux st (none, 0)

/-- Selector loop of lines 225-250: the first strategy, in priority order,
whose largest candidate has area strictly greater than 40000 wins. -/
def resolveElem : List (List Cand) → Option Cand
  | [] => none
  | st :: rest =>
    let r := pickLargest st
    match r.1 with
    | some c => if r.2 > 40000 then some c else resolveElem rest
    | none => resolveElem rest

/-- Source-locator check of lines 261-263: reject a missing or empty `src`
and inline `data:` payloads. -/
def srcOf (c : Cand) : Option String :=
  match c.src with
  | none => none
  | some u => if u.toList.isEmpty || listLeads "data:".toList u.toList then none else some u

/-- Full resolution of one item: chosen element plus the source check.
Returns the resolved image URL or `none` (NotFound). -/
def resolveFull (sts : List (List Cand)) : Option String :=
  match resolveElem sts with
  | none => none
  | some c => srcOf c

/-- The browsing surface the driver is currently on: the gallery view or a
single photo page. -/
inductive Ctx where
  | gallery : Ctx
  | photo : String → Ctx
deriving DecidableEq, Repr

/-- Observable events of a run, used to state ordering properties:
limit checks (lines 141 and 191), marking a link processed (line 188),
HTTP fetches (line 304), file writes/removals (lines 307, 314) and the
three counter increments. -/
inductive Ev where
  | limitCheck : Ev
  | processMark : String → Ev
  | fetchAttempt : Ev
  | write : String → Ev
  | unlink : String → Ev
  | downloadedInc : Ev
  | failedInc : Ev
  | skippedInc : Ev
deriving DecidableEq, BEq, Repr

/-- The mutable session state of `scrape_photos_selenium`: the three
counters, the dedup index `existing_ids`, the output folder contents
(file name with its bytes), the session seen-set `processed_urls`, the
active browsing context, and the event trace. -/
structure RunState where
  downloaded_count : Nat
  failed_count : Nat
  skipped_count : Nat
  existing_ids : List String
  files : List (String × List Nat)
  processed_urls : List String
  ctx : Ctx
  trace : List Ev

/-- Everything the outside world decides while one link is processed:
whether navigating to the photo page succeeds, the selector result sets,
the HTTP response (`none` models a raised timeout), and whether the two
possible gallery-restore navigations succeed (line 328 in the normal flow,
line 336 inside the exception handler). -/
structure ItemEnv where
  navOk : Bool
  strategies : List (List Cand)
  fetch : Option (Nat × List Nat)
  restoreOk : Bool
  restoreRetryOk : Bool

/-- `get_existing_photo_ids` (lines 75-83): stems of the non-hidden files
in the output folder. -/
def get_existing_photo_ids (folder : List (String × List Nat)) : List String :=
  ((folder.map Prod.fst).filter (fun n => !listLeads ['.'] n.toList)).map stemOf

/-- Session state at the start of a run over a given output folder
(lines 66-137): counters zero, dedup index scanned from the folder,
empty seen-set, gallery context. -/
def initState (folder : List (String × List Nat)) : RunState :=
  { downloaded_count := 0
    failed_count := 0
    skipped_count := 0
    existing_ids := get_existing_photo_ids folder
    files := folder
    processed_urls := []
    ctx := Ctx.gallery
    trace := [] }

/-- Increment `failed_count` (with its trace event). -/
def failInc (s : RunState) : RunState :=
  { s with failed_count := s.failed_count + 1, trace := s.trace ++ [Ev.failedInc] }

/-- Increment `skipped_count` (with its trace event). -/
def skipInc (s : RunState) : RunState :=
  { s with skipped_count := s.skipped_count + 1, trace := s.trace ++ [Ev.skippedInc] }

/-- Increment `downloaded_count` (with its trace event). -/
def dlInc (s : RunState) : RunState :=
  { s with downloaded_count := s.downloaded_count + 1, trace := s.trace ++ [Ev.downloadedInc] }

/-- The `except Exception` handler of lines 331-340: count a failure, then
try once more to return to the gallery, swallowing a second failure. -/
def exceptHandler (e : ItemEnv) (s : RunState) : RunState :=
  let s := failInc s
  if e.restoreRetryOk then { s with ctx := Ctx.gallery } else s

/-- A `driver.get(photos_url)` on a normal path (lines 256, 267, 296, 328):
return to the gallery, or raise into the exception handler. -/
def restoreCont (e : ItemEnv) (s : RunState) : RunState :=
  if e.restoreOk then { s with ctx := Ctx.gallery } else exceptHandler e s

/-- The early dedup check of lines 196-207: an `fbid`-derived id already in
`existing_ids`. -/
def earlySkip (ids : List String) (photoUrl : String) : Bool :=
  match fbidOf photoUrl with
  | some pid => ids.contains pid
  | none => false

/-- The `if limit and downloaded_count >= limit` guard (lines 141 and 191);
a limit of `0` is falsy in Python and never triggers. -/
def limitHit : Option Nat → Nat → Bool
  | none, _ => false
  | some n, d => (n != 0) && decide (n ≤ d)

/-- Body of the per-link `try` block (lines 195-340), after the link was
marked processed and the limit check passed. -/
def processBody (e : ItemEnv) (photoUrl : String) (s : RunState) : RunState :=
  if earlySkip s.existing_ids photoUrl then skipInc s
  else if !e.navOk then exceptHandler e s
  else
    let s := { s with ctx := Ctx.photo photoUrl }
    match resolveFull e.strategies with
    | none => restoreCont e (failInc s)
    | some imgUrl =>
      let pid := photoIdOf photoUrl imgUrl s.downloaded_count
      let name := pid ++ extOf imgUrl
      if s.files.any (fun p => p.1 == name) then
        restoreCont e { (skipInc s) with existing_ids := s.existing_ids.insert pid }
      else
        let s := { s with trace := s.trace ++ [Ev.fetchAttempt] }
        match e.fetch with
        | none => exceptHandler e s
        | some (status, bytes) =>
          if status == 200 then
            let s := { s with files := s.files ++ [(name, bytes)],
                              trace := s.trace ++ [Ev.write name] }
            if bytes.length < 1000 then
              restoreCont e (failInc { s with
                files := s.files.filter (fun p => p.1 != name),
                trace := s.trace ++ [Ev.unlink name] })
            else
              restoreCont e { (dlInc s) with existing_ids := s.existing_ids.insert pid }
          else restoreCont e (failInc s)

/-- One pass of the per-link loop body (lines 186-340): mark the link
processed, re-check the download limit (breaking the batch when hit), then
run the guarded body.  The boolean is the `break` of line 193. -/
def processLink (limit : Option Nat) (e : ItemEnv) (photoUrl : String) (s : RunState) :
    RunState × Bool :=
  let s1 := { s with processed_urls := s.processed_urls.insert photoUrl,
                     trace := s.trace ++ [Ev.processMark photoUrl, Ev.limitCheck] }
  if limitHit limit s1.downloaded_count then (s1, true)
  else (processBody e photoUrl s1, false)

/-- The `for idx, photo_url in enumerate(new_photos, 1)` loop. -/
def runBatch (limit : Option Nat) (envF : String → ItemEnv) :
    List String → RunState → RunState
  | [], s => s
  | u :: rest, s =>
    let r := processLink limit (envF u) u s
    if r.2 then r.1 else runBatch limit envF rest r.1

/-- The link filter of lines 162-164: keep hrefs mentioning a photo pattern
and drop album/collection links.  An absent or empty href never passes. -/
def linkFilter (href : String) : Bool :=
  let l := href.toList
  (listHas "/photos/".toList l || listHas "/photo/".toList l || listHas "fbid=".toList l)
    && !listHas "/photos/a.".toList l && !listHas "/photos/albums/".toList l

/-- Order-preserving de-duplication (`list(dict.fromkeys(...))`, line 170). -/
def dedupFirstAux (seen : List String) : List String → List String
  | [] => []
  | x :: xs =>
    if seen.contains x then dedupFirstAux seen xs
    else x :: dedupFirstAux (x :: seen) xs

/-- De-duplicate preserving first-seen order. -/
def dedupFirst (l : List String) : List String := dedupFirstAux [] l

/-- Link discovery for one iteration (lines 149-170): collect the visible
hrefs (a raising or attribute-less element yields `none`), filter, and
de-duplicate preserving order. -/
def discover (hrefs : List (Option String)) : List String :=
  dedupFirst ((hrefs.filterMap id).filter linkFilter)

/-- `new_photos` (line 173): discovered links not yet in the seen-set. -/
def newLinks (s : RunState) (links : List String) : List String :=
  links.filter (fun u => !(s.processed_urls.contains u))

/-- The scroll loop of lines 139-369.  Arguments after the configuration:
remaining iteration budget, current iteration index (into `pages`), the
`no_new_photos_count` counter, and the state.  Returns the final state, the
number of iterations that ran discovery, and the per-iteration
`new_photos_count` values. -/
def runLoop (limit : Option Nat) (envF : String → ItemEnv)
    (pages : Nat → List (Option String)) :
    Nat → Nat → Nat → RunState → RunState × Nat × List Nat
  | 0, _, _, s => (s, 0, [])
  | n + 1, i, ec, s =>
    let s1 := { s with trace := s.trace ++ [Ev.limitCheck] }
    if limitHit limit s1.downloaded_count then (s1, 0, [])
    else
      let new := newLinks s1 (discover (pages i))
      if new.isEmpty then
        if ec + 1 ≥ 10 then (s1, 1, [0])
        else
          let r := runLoop limit envF pages n (i + 1) (ec + 1) s1
          (r.1, r.2.1 + 1, 0 :: r.2.2)
      else
        let s2 := runBatch limit envF new s1
        let r := runLoop limit envF pages n (i + 1) 0 s2
        (r.1, r.2.1 + 1, new.length :: r.2.2)

/-- The whole core run of `scrape_photos_selenium`: scan the output folder,
then drive the scroll loop.  The `resume` flag is consumed exactly where the
source consumes it — it only selects a console message (lines 86-89) — so it
does not enter the computation. -/
def scrape_photos_selenium (folder : List (String × List Nat)) (resume : Bool)
    (limit : Option Nat) (envF : String → ItemEnv)
    (pages : Nat → List (Option String)) (max_scrolls : Nat) :
    RunState × Nat × List Nat :=
  let _ := resume
  runLoop limit envF pages max_scrolls 0 0 (initState folder)

/-! ### Specification-side resolver

Written from the spec's words (§4.2) rather than from the code, to be
compared with `resolveElem`/`resolveFull` for the refinement claim. -/

/-- Candidates of a strategy whose reads do not raise. -/
def liveCands (st : List Cand) : List Cand := st.filter (fun c => !c.raises)

/-- Modelled from the spec: the largest candidate area within one
strategy's result set. -/
def maxAreaOf (st : List Cand) : Nat :=
  (liveCands st).foldl (fun m c => max m (candArea c)) 0

/-- Modelled from the spec: accept the first strategy, in priority order,
whose largest candidate exceeds the minimum-area floor, and within it keep
the single largest candidate. -/
def resolveSpecElem (sts : List (List Cand)) : Option Cand :=
  match sts.find? (fun st => decide (maxAreaOf st > 40000)) with
  | none => none
  | some st => (liveCands st).find? (fun c => candArea c == maxAreaOf st)

/-- Modelled from the spec: resolution fails with NotFound when no strategy
yields a qualifying candidate, or when the chosen candidate's source locator
is empty or an inline data payload rather than a network locator. -/
def resolveSpecFull (sts : List (List Cand)) : Option String :=
  match resolveSpecElem sts with
  | none => none
  | some c =>
    match c.src with
    | none => none
    | some u =>
      if u.toList.isEmpty || listLeads "data:".toList u.toList then none else some u

/-! ### Observables used by the theorems -/

/-- URLs of the `processMark` events of a trace, in order. -/
def marksOf (tr : List Ev) : List String :=
  tr.filterMap (fun e => match e with | Ev.processMark u => some u | _ => none)

/-- The `no_new_photos_count` update of lines 182-184 and 347-348, folded
over a list of per-iteration new-link counts: a zero-count iteration
increments the counter, a positive one resets it. -/
def ecAfter (ec : Nat) (tr : List Nat) : Nat :=
  tr.foldl (fun e c => if c = 0 then e + 1 else 0) ec

/-- Step of `fetchesAfterLastCommit`: count fetch attempts seen since the
most recent `downloadedInc`. -/
def fscStep (acc : Option Nat) (e : Ev) : Option Nat :=
  match e with
  | Ev.downloadedInc => some 0
  | Ev.fetchAttempt => match acc with | some n => some (n + 1) | none => none
  | _ => acc

/-- Number of fetch attempts occurring after the last committed download of
a trace (zero when the trace has no committed download). -/
def fetchesAfterLastCommit (tr : List Ev) : Nat :=
  (tr.foldl fscStep none).getD 0

/-- Step of `checkedBeforeCommit`: track whether a limit check occurred
between each fetch and the commit that follows it. -/
def cbcStep (p : Bool × Bool) (e : Ev) : Bool × Bool :=
  match e with
  | Ev.fetchAttempt => (p.1, false)
  | Ev.limitCheck => (p.1, true)
  | Ev.downloadedInc => (p.1 && p.2, p.2)
  | _ => p

/-- Does every committed download have a limit check between the completed
fetch and the commit?  (The placement the claim asserts.) -/
def checkedBeforeCommit (tr : List Ev) : Bool :=
  (tr.foldl cbcStep (true, true)).1

/-- Sum of the three session counters. -/
def counterSum (s : RunState) : Nat :=
  s.downloaded_count + s.failed_count + s.skipped_count

/-- A link whose processing is guaranteed to run the full happy path:
navigation works, resolution yields `src`, the fetch returns HTTP 200 with
`b`, the body is large enough, and the gallery restore succeeds. -/
def GoodEnv (e : ItemEnv) (src : String) (b : List Nat) : Prop :=
  e.navOk = true ∧ e.restoreOk = true ∧ resolveFull e.strategies = some src ∧
    e.fetch = some (200, b) ∧ 1000 ≤ b.length

/-- Expected event block appended by one fully successful link whose stored
file is `nameF u`, starting from `d` committed downloads under limit `N`:
successful links commit until the limit is reached, after which the next
link is only marked and breaks the batch. -/
def expectedTrace (nameF : String → String) (N : Nat) : Nat → List String → List Ev
  | _, [] => []
  | d, u :: rest =>
    if N ≤ d then [Ev.processMark u, Ev.limitCheck]
    else [Ev.processMark u, Ev.limitCheck, Ev.fetchAttempt, Ev.write (nameF u),
          Ev.downloadedInc] ++ expectedTrace nameF N (d + 1) rest

/-! ### Concrete scenarios used by counterexamples and witnesses -/

/-- A valid (1000-byte) downloaded body. -/
def demoBytes : List Nat := List.replicate 1000 7

/-- An environment on which a link's processing takes the full happy path. -/
def happyEnv (src : String) (b : List Nat) : ItemEnv :=
  { navOk := true
    strategies := [[{ raises := false, attrW := some 300, attrH := some 300,
                      boxW := 0, boxH := 0, src := some src }]]
    fetch := some (200, b)
    restoreOk := true
    restoreRetryOk := true }

/-- A gallery exposing two distinct links (different `fbid`s) on the first
iteration and nothing afterwards. -/
def twoLinkPages : Nat → List (Option String) :=
  fun i => if i = 0 then [some "/photo/?fbid=11", some "/photo/?fbid=22"] else []

/-- A gallery exposing a single link on the first iteration. -/
def oneLinkPages : Nat → List (Option String) :=
  fun i => if i = 0 then [some "/photo/?fbid=11"] else []

/-- An environment whose item resolves and downloads but whose gallery
restore navigation raises (and whose best-effort retry succeeds). -/
def restoreFailEnv : ItemEnv :=
  { happyEnv "i/a.jpg" demoBytes with restoreOk := false }

/-- An environment whose resolution fails and whose gallery restore raises
on both the normal path and the best-effort retry. -/
def doubleRestoreFailEnv : ItemEnv :=
  { navOk := true, strategies := [], fetch := none,
    restoreOk := false, restoreRetryOk := false }

/-! ## Theorems -/

/-- C7: the resume flag affects only the pre-population of the Dedup Index;
in fact the core run is literally identical for any two values of the flag
(the source consumes `resume` only in a console message), and the dedup
index is pre-populated from the output folder unconditionally. -/
theorem C7_resume_equivalence :
    (∀ (folder : List (String × List Nat)) (limit : Option Nat)
       (envF : String → ItemEnv) (pages : Nat → List (Option String)) (ms : Nat)
       (r₁ r₂ : Bool),
        scrape_photos_selenium folder r₁ limit envF pages ms =
          scrape_photos_selenium folder r₂ limit envF pages ms) ∧
    (∀ folder : List (String × List Nat),
        (initState folder).existing_ids = get_existing_photo_ids folder) :=
  ⟨fun _ _ _ _ _ _ _ => rfl, fun _ => rfl⟩

/-- C1 counterexample: a run over an empty output folder where two links
with distinct `fbid`s both fetch byte-identical bodies creates two stored
files, refuting the claim that byte-identical items yield exactly one
StoredAsset. -/
theorem C1_counterexample :
    (scrape_photos_selenium [] false none (fun _ => happyEnv "i/a.jpg" demoBytes)
        twoLinkPages 1).1.files
      = [("11.jpg", demoBytes), ("22.jpg", demoBytes)] := by
  decide

/-- C3 counterexample: in a run with limit 1 that commits a download, no
limit check occurs between the completed fetch and its commit, refuting the
claimed check "again before committing a completed download"; the commit
does occur (`downloaded_count = 1`). -/
theorem C3_counterexample :
    checkedBeforeCommit
        (scrape_photos_selenium [] false (some 1) (fun _ => happyEnv "i/a.jpg" demoBytes)
          oneLinkPages 1).1.trace = false ∧
      (scrape_photos_selenium [] false (some 1) (fun _ => happyEnv "i/a.jpg" demoBytes)
          oneLinkPages 1).1.downloaded_count = 1 := by
  constructor <;> decide

/-- C5 counterexample: when the item's processing raises and both gallery
restore navigations fail (the second failure is swallowed by the
`except: pass` of lines 338-339), the run continues with the inspection
context still active, refuting the guaranteed-restoration claim. -/
theorem C5_counterexample :
    (processLink none doubleRestoreFailEnv "x" (initState [])).1.ctx = Ctx.photo "x" ∧
      (processLink none doubleRestoreFailEnv "x" (initState [])).1.ctx ≠ Ctx.gallery := by
  constructor <;> decide

/-- C9 counterexample: a link whose download commits but whose gallery
restore navigation raises increments both `downloaded_count` and
`failed_count`, refuting the exactly-one-counter claim. -/
theorem C9_counterexample :
    (processLink none restoreFailEnv "/photo/?fbid=9" (initState [])).1.downloaded_count = 1 ∧
      (processLink none restoreFailEnv "/photo/?fbid=9" (initState [])).1.failed_count = 1 := by
  constructor <;> decide

/-! ### Per-link branch lemmas -/

lemma restoreCont_ctx (e : ItemEnv) (s : RunState) (h : e.restoreOk = true) :
    (restoreCont e s).ctx = Ctx.gallery := by
  simp [restoreCont, h]

lemma exceptHandler_ctx (e : ItemEnv) (s : RunState) (h : e.restoreRetryOk = true) :
    (exceptHandler e s).ctx = Ctx.gallery := by
  simp [exceptHandler, h]

lemma processBody_ctx (e : ItemEnv) (u : String) (s : RunState)
    (hctx : s.ctx = Ctx.gallery) (h1 : e.restoreOk = true) (h2 : e.restoreRetryOk = true) :
    (processBody e u s).ctx = Ctx.gallery := by
  unfold processBody
  dsimp only
  repeat' split
  all_goals first
    | exact hctx
    | exact exceptHandler_ctx e _ h2
    | exact restoreCont_ctx e _ h1

/-- C5 amended: every exit path attempts the switch back, and whenever the
gallery-restore navigations succeed (including the best-effort retry of the
exception path) the active context after processing any item equals the
gallery context. -/
theorem C5_amended_context_restore (limit : Option Nat) (e : ItemEnv) (u : String)
    (s : RunState) (hctx : s.ctx = Ctx.gallery)
    (h1 : e.restoreOk = true) (h2 : e.restoreRetryOk = true) :
    ((processLink limit e u s).1).ctx = Ctx.gallery := by
  unfold processLink
  dsimp only
  split
  · exact hctx
  · exact processBody_ctx e u _ hctx h1 h2

/-- Witness for `C5_amended_context_restore` at a concrete item. -/
theorem C5_amended_context_restore_witness :
    ((processLink none (happyEnv "i/a.jpg" demoBytes) "/photo/?fbid=9"
        (initState [])).1).ctx = Ctx.gallery :=
  C5_amended_context_restore none (happyEnv "i/a.jpg" demoBytes) "/photo/?fbid=9"
    (initState []) rfl rfl rfl

lemma restoreCont_counterSum (e : ItemEnv) (s : RunState) (h : e.restoreOk = true) :
    counterSum (restoreCont e s) = counterSum s := by
  simp [restoreCont, h, counterSum]

lemma exceptHandler_counterSum (e : ItemEnv) (s : RunState) :
    counterSum (exceptHandler e s) = counterSum s + 1 := by
  unfold exceptHandler failInc
  split <;> simp [counterSum] <;> omega

/-- C9 amended: a link whose processing runs to completion (the limit check
passes) moves exactly one of the three counters by exactly one, provided the
gallery-restore navigation of its normal path succeeds. -/
theorem C9_amended_counter_increment (limit : Option Nat) (e : ItemEnv) (u : String)
    (s : RunState) (hlim : limitHit limit s.downloaded_count = false)
    (h1 : e.restoreOk = true) :
    counterSum (processLink limit e u s).1 = counterSum s + 1 := by
  unfold processLink
  dsimp only
  split
  · next h =>
    exact absurd h (by simp [hlim])
  · unfold processBody
    dsimp only
    repeat' split
    all_goals first
      | (rw [exceptHandler_counterSum]; simp [counterSum])
      | (rw [restoreCont_counterSum _ _ h1]
         simp [failInc, skipInc, dlInc, counterSum]
         omega)
      | (simp [skipInc, counterSum]; omega)

/-- Witness for `C9_amended_counter_increment` at a concrete item. -/
theorem C9_amended_counter_increment_witness :
    counterSum (processLink none (happyEnv "i/a.jpg" demoBytes) "/photo/?fbid=9"
        (initState [])).1 = counterSum (initState []) + 1 :=
  C9_amended_counter_increment none (happyEnv "i/a.jpg" demoBytes) "/photo/?fbid=9"
    (initState []) rfl rfl

/-! ### Exact-state lemmas for the download branch -/

lemma processLink_good_eq (limit : Option Nat) (e : ItemEnv) (u src : String)
    (b : List Nat) (s : RunState)
    (hlim : limitHit limit s.downloaded_count = false)
    (hskip : earlySkip s.existing_ids u = false)
    (hnav : e.navOk = true)
    (hres : resolveFull e.strategies = some src)
    (hname : (s.files.any fun p =>
        p.1 == photoIdOf u src s.downloaded_count ++ extOf src) = false)
    (hfetch : e.fetch = some (200, b))
    (hrest : e.restoreOk = true)
    (hb : ¬ b.length < 1000) :
    processLink limit e u s =
      ({ s with
          processed_urls := s.processed_urls.insert u,
          downloaded_count := s.downloaded_count + 1,
          existing_ids := s.existing_ids.insert (photoIdOf u src s.downloaded_count),
          files := s.files ++ [(photoIdOf u src s.downloaded_count ++ extOf src, b)],
          ctx := Ctx.gallery,
          trace := s.trace ++ [Ev.processMark u, Ev.limitCheck, Ev.fetchAttempt,
            Ev.write (photoIdOf u src s.downloaded_count ++ extOf src),
            Ev.downloadedInc] }, false) := by
  unfold processLink processBody restoreCont dlInc
  dsimp only
  simp only [hlim, hskip, hnav, hres, hfetch, hname, hrest, Bool.false_eq_true,
    Bool.not_true, if_false, if_neg hb, beq_self_eq_true, if_true, ite_true, ite_false,
    Bool.true_eq_false]
  simp [List.append_assoc]

lemma processLink_small_eq (limit : Option Nat) (e : ItemEnv) (u src : String)
    (b : List Nat) (s : RunState)
    (hlim : limitHit limit s.downloaded_count = false)
    (hskip : earlySkip s.existing_ids u = false)
    (hnav : e.navOk = true)
    (hres : resolveFull e.strategies = some src)
    (hname : (s.files.any fun p =>
        p.1 == photoIdOf u src s.downloaded_count ++ extOf src) = false)
    (hfetch : e.fetch = some (200, b))
    (hrest : e.restoreOk = true)
    (hb : b.length < 1000) :
    processLink limit e u s =
      ({ s with
          processed_urls := s.processed_urls.insert u,
          failed_count := s.failed_count + 1,
          files := (s.files ++ [(photoIdOf u src s.downloaded_count ++ extOf src, b)]).filter
            (fun p => p.1 != photoIdOf u src s.downloaded_count ++ extOf src),
          ctx := Ctx.gallery,
          trace := s.trace ++ [Ev.processMark u, Ev.limitCheck, Ev.fetchAttempt,
            Ev.write (photoIdOf u src s.downloaded_count ++ extOf src),
            Ev.unlink (photoIdOf u src s.downloaded_count ++ extOf src),
            Ev.failedInc] }, false) := by
  unfold processLink processBody restoreCont failInc
  dsimp only
  simp only [hlim, hskip, hnav, hres, hfetch, hname, hrest, Bool.false_eq_true,
    Bool.not_true, if_false, if_pos hb, beq_self_eq_true, if_true, ite_true, ite_false,
    Bool.true_eq_false]
  simp [List.append_assoc]

lemma filter_fresh_eq (files : List (String × List Nat)) (name : String)
    (h : (files.any fun p => p.1 == name) = false) :
    files.filter (fun p => p.1 != name) = files := by
  apply List.filter_eq_self.mpr
  intro a ha
  have hne := List.any_eq_false.mp h a ha
  simp only [bne]
  simp only [Bool.not_eq_true] at hne ⊢
  simp [hne]

/-- C2: a download whose body is below the 1000-byte validity threshold is
written, then removed before the failure is signaled — no file remains and
`failed_count` increments while `downloaded_count` does not — and a file is
persisted exactly when the body is at least the threshold, in which case
`downloaded_count` increments. -/
theorem C2_size_floor (limit : Option Nat) (e : ItemEnv) (u src : String)
    (b : List Nat) (s : RunState)
    (hlim : limitHit limit s.downloaded_count = false)
    (hskip : earlySkip s.existing_ids u = false)
    (hnav : e.navOk = true)
    (hres : resolveFull e.strategies = some src)
    (hname : (s.files.any fun p =>
        p.1 == photoIdOf u src s.downloaded_count ++ extOf src) = false)
    (hfetch : e.fetch = some (200, b))
    (hrest : e.restoreOk = true) :
    (b.length < 1000 →
      (processLink limit e u s).1.files = s.files ∧
      (processLink limit e u s).1.failed_count = s.failed_count + 1 ∧
      (processLink limit e u s).1.downloaded_count = s.downloaded_count ∧
      (processLink limit e u s).1.trace = s.trace ++ [Ev.processMark u, Ev.limitCheck,
        Ev.fetchAttempt, Ev.write (photoIdOf u src s.downloaded_count ++ extOf src),
        Ev.unlink (photoIdOf u src s.downloaded_count ++ extOf src), Ev.failedInc]) ∧
    (1000 ≤ b.length →
      (processLink limit e u s).1.files =
        s.files ++ [(photoIdOf u src s.downloaded_count ++ extOf src, b)] ∧
      (processLink limit e u s).1.downloaded_count = s.downloaded_count + 1 ∧
      (processLink limit e u s).1.failed_count = s.failed_count) := by
  constructor
  · intro hb
    rw [processLink_small_eq limit e u src b s hlim hskip hnav hres hname hfetch hrest hb]
    refine ⟨?_, rfl, rfl, rfl⟩
    rw [List.filter_append, filter_fresh_eq _ _ hname]
    simp
  · intro hb
    rw [processLink_good_eq limit e u src b s hlim hskip hnav hres hname hfetch hrest
      (by omega)]
    exact ⟨rfl, rfl, rfl⟩

/-- Witness for `C2_size_floor`: a 3-byte download at a concrete item is
discarded, leaving no file and one failure. -/
theorem C2_size_floor_witness :
    (processLink none (happyEnv "i/a.jpg" [1, 2, 3]) "/photo/?fbid=5"
        (initState [])).1.files = (initState []).files ∧
      (processLink none (happyEnv "i/a.jpg" [1, 2, 3]) "/photo/?fbid=5"
        (initState [])).1.failed_count = (initState []).failed_count + 1 := by
  have h := (C2_size_floor none (happyEnv "i/a.jpg" ([1, 2, 3] : List Nat)) "/photo/?fbid=5"
    "i/a.jpg" ([1, 2, 3] : List Nat) (initState []) rfl rfl rfl (by decide) rfl rfl
    rfl).1 (by decide)
  exact ⟨h.1, h.2.1⟩

lemma processLink_dup_eq (limit : Option Nat) (e : ItemEnv) (u src : String)
    (s : RunState)
    (hlim : limitHit limit s.downloaded_count = false)
    (hskip : earlySkip s.existing_ids u = false)
    (hnav : e.navOk = true)
    (hres : resolveFull e.strategies = some src)
    (hname : (s.files.any fun p =>
        p.1 == photoIdOf u src s.downloaded_count ++ extOf src) = true)
    (hrest : e.restoreOk = true) :
    processLink limit e u s =
      ({ s with
          processed_urls := s.processed_urls.insert u,
          skipped_count := s.skipped_count + 1,
          existing_ids := s.existing_ids.insert (photoIdOf u src s.downloaded_count),
          ctx := Ctx.gallery,
          trace := s.trace ++ [Ev.processMark u, Ev.limitCheck, Ev.skippedInc] }, false) := by
  unfold processLink processBody restoreCont skipInc
  dsimp only
  simp only [hlim, hskip, hnav, hres, hname, hrest, Bool.false_eq_true, Bool.not_true,
    if_false, if_true, ite_true, ite_false, Bool.true_eq_false]
  simp [List.append_assoc]

/-- C1 amended: the stored-asset identifier is a deterministic function of
the item's locators (and the session download count for the fallback id),
never of the downloaded bytes — a successful download stores exactly
`photoIdOf(link, imgUrl, count) ++ ext(imgUrl)` whatever the body is — and
an item is de-duplicated (Skipped, no new file) exactly when that
locator-derived filename already exists in the output folder. -/
theorem C1_amended_locator_identity :
    (∀ (limit : Option Nat) (e : ItemEnv) (u src : String) (b : List Nat) (s : RunState),
      limitHit limit s.downloaded_count = false →
      earlySkip s.existing_ids u = false →
      e.navOk = true →
      resolveFull e.strategies = some src →
      (s.files.any fun p => p.1 == photoIdOf u src s.downloaded_count ++ extOf src) = false →
      e.fetch = some (200, b) →
      e.restoreOk = true →
      1000 ≤ b.length →
      (processLink limit e u s).1.files =
        s.files ++ [(photoIdOf u src s.downloaded_count ++ extOf src, b)]) ∧
    (∀ (limit : Option Nat) (e : ItemEnv) (u src : String) (s : RunState),
      limitHit limit s.downloaded_count = false →
      earlySkip s.existing_ids u = false →
      e.navOk = true →
      resolveFull e.strategies = some src →
      (s.files.any fun p => p.1 == photoIdOf u src s.downloaded_count ++ extOf src) = true →
      e.restoreOk = true →
      (processLink limit e u s).1.files = s.files ∧
        (processLink limit e u s).1.skipped_count = s.skipped_count + 1 ∧
        (processLink limit e u s).1.downloaded_count = s.downloaded_count) := by
  constructor
  · intro limit e u src b s hlim hskip hnav hres hname hfetch hrest hb
    rw [processLink_good_eq limit e u src b s hlim hskip hnav hres hname hfetch hrest
      (by omega)]
  · intro limit e u src s hlim hskip hnav hres hname hrest
    rw [processLink_dup_eq limit e u src s hlim hskip hnav hres hname hrest]
    exact ⟨rfl, rfl, rfl⟩

/-- Witness for `C1_amended_locator_identity`: a concrete fresh item stores
its locator-derived file, and re-encountering the same derived filename is
skipped. -/
theorem C1_amended_locator_identity_witness :
    (processLink none (happyEnv "i/a.jpg" demoBytes) "/photo/?fbid=5"
        (initState [])).1.files = (initState []).files ++ [("5.jpg", demoBytes)] ∧
      (processLink none (happyEnv "i/12345678901_a.jpg" demoBytes) "/photo/x"
          (initState [("12345678901.jpg", demoBytes)])).1.files =
        [("12345678901.jpg", demoBytes)] := by
  constructor
  · exact C1_amended_locator_identity.1 none (happyEnv "i/a.jpg" demoBytes) "/photo/?fbid=5"
      "i/a.jpg" demoBytes (initState []) rfl rfl rfl (by decide) rfl rfl rfl
      (by simp [demoBytes])
  · have h := (C1_amended_locator_identity.2 none (happyEnv "i/12345678901_a.jpg" demoBytes)
      "/photo/x" "i/12345678901_a.jpg" (initState [("12345678901.jpg", demoBytes)]) rfl
      (by decide) rfl (by decide) (by decide) rfl).1
    exact h

/-- C10: the stored file's extension is always one of `.jpg`, `.jpeg`,
`.png`, `.gif`, `.webp` — compared case-insensitively on the final
dot-segment of `img_url.split('/')[-1].split('?')[0]` — and defaults to
`.jpg` whenever that segment carries no recognized extension. -/
theorem C10_extension_whitelist (url : String) :
    (extOf url = ".jpg" ∨ extOf url = ".jpeg" ∨ extOf url = ".png" ∨ extOf url = ".gif"
      ∨ extOf url = ".webp") ∧
    (recognizedSeg url = false → extOf url = ".jpg") := by
  unfold extOf recognizedSeg
  dsimp only
  cases h1 : (extSeg url).contains '.' with
  | false => simp [h1]
  | true =>
    cases h2 : knownExts.any
        (fun t => t.toList == (lastSeg (extSeg url) '.').map Char.toLower) with
    | false => simp [h1, h2]
    | true =>
      simp only [h1, h2, if_true, ite_true, Bool.true_and]
      constructor
      · rw [List.any_eq_true] at h2
        obtain ⟨t, ht, heq⟩ := h2
        have hu : t.toList = (lastSeg (extSeg url) '.').map Char.toLower := eq_of_beq heq
        simp only [knownExts, List.mem_cons, List.not_mem_nil, or_false] at ht
        rcases ht with h | h | h | h | h <;> subst h <;> rw [← hu] <;> decide
      · intro hrec
        exact absurd hrec (by simp)

/-- Witness for `C10_extension_whitelist`: a URL whose last segment carries
no recognized extension falls back to `.jpg`. -/
theorem C10_extension_whitelist_witness : extOf "https://c/a/img_full?x=1" = ".jpg" :=
  (C10_extension_whitelist "https://c/a/img_full?x=1").2 (by decide)

/-! ### Resolver characterization (for the refinement claim) -/

lemma foldl_max_init (l : List Cand) :
    ∀ m : Nat, m ≤ l.foldl (fun x c => max x (candArea c)) m := by
  induction l with
  | nil => intro m; simp
  | cons c t ih =>
    intro m
    rw [List.foldl_cons]
    exact le_trans (Nat.le_max_left m (candArea c)) (ih (max m (candArea c)))

lemma foldl_max_le_elem (l : List Cand) :
    ∀ (m : Nat) (c : Cand), c ∈ l → candArea c ≤ l.foldl (fun x c => max x (candArea c)) m := by
  induction l with
  | nil => intro m c hc; exact absurd hc (List.not_mem_nil c)
  | cons a t ih =>
    intro m c hc
    rw [List.foldl_cons]
    rcases List.mem_cons.mp hc with rfl | h
    · exact le_trans (Nat.le_max_right m (candArea c)) (foldl_max_init t _)
    · exact ih _ c h

lemma foldl_max_attained (l : List Cand) :
    ∀ m : Nat, l.foldl (fun x c => max x (candArea c)) m = m ∨
      ∃ c ∈ l, l.foldl (fun x c => max x (candArea c)) m = candArea c := by
  induction l with
  | nil => intro m; left; rfl
  | cons a t ih =>
    intro m
    rw [List.foldl_cons]
    rcases ih (max m (candArea a)) with h | ⟨c, hc, h⟩
    · rcases Nat.le_total (candArea a) m with hle | hle
      · left; rw [h, Nat.max_eq_left hle]
      · right; exact ⟨a, List.mem_cons_self a t, by rw [h, Nat.max_eq_right hle]⟩
    · right; exact ⟨c, List.mem_cons_of_mem a hc, h⟩

lemma pickLargestAux_snd (l : List Cand) :
    ∀ (lg : Option Cand) (m : Nat),
      (pickLargestAux l (lg, m)).2 = (liveCands l).foldl (fun x c => max x (candArea c)) m := by
  induction l with
  | nil => intro lg m; rfl
  | cons c t ih =>
    intro lg m
    by_cases hr : c.raises = true
    · rw [show pickLargestAux (c :: t) (lg, m) = pickLargestAux t (lg, m) by
        simp [pickLargestAux, hr]]
      rw [show liveCands (c :: t) = liveCands t by simp [liveCands, List.filter_cons, hr]]
      exact ih lg m
    · have hlive : liveCands (c :: t) = c :: liveCands t := by
        simp [liveCands, List.filter_cons, hr]
      rw [hlive, List.foldl_cons]
      by_cases hgt : candArea c > m
      · rw [show pickLargestAux (c :: t) (lg, m) = pickLargestAux t (some c, candArea c) by
          simp [pickLargestAux, hr, hgt]]
        rw [ih, Nat.max_eq_right (Nat.le_of_lt hgt)]
      · rw [show pickLargestAux (c :: t) (lg, m) = pickLargestAux t (lg, m) by
          simp [pickLargestAux, hr, hgt]]
        rw [ih, Nat.max_eq_left (Nat.le_of_not_lt hgt)]

lemma pickLargestAux_fixed (l : List Cand) :
    ∀ (lg : Option Cand) (m : Nat),
      (∀ c ∈ liveCands l, candArea c ≤ m) → pickLargestAux l (lg, m) = (lg, m) := by
  induction l with
  | nil => intro lg m _; rfl
  | cons c t ih =>
    intro lg m hall
    by_cases hr : c.raises = true
    · rw [show pickLargestAux (c :: t) (lg, m) = pickLargestAux t (lg, m) by
        simp [pickLargestAux, hr]]
      refine ih lg m fun x hx => hall x ?_
      simp [liveCands, List.filter_cons, hr]
      exact (by simpa [liveCands] using hx)
    · have hlive : liveCands (c :: t) = c :: liveCands t := by
        simp [liveCands, List.filter_cons, hr]
      have hc : candArea c ≤ m := hall c (by rw [hlive]; exact List.mem_cons_self c _)
      rw [show pickLargestAux (c :: t) (lg, m) = pickLargestAux t (lg, m) by
        simp [pickLargestAux, hr, Nat.not_lt.mpr hc]]
      refine ih lg m fun x hx => hall x ?_
      rw [hlive]
      exact List.mem_cons_of_mem c hx

lemma pickLargestAux_fst (l : List Cand) :
    ∀ (lg : Option Cand) (m : Nat), m < (pickLargestAux l (lg, m)).2 →
      (pickLargestAux l (lg, m)).1 =
        (liveCands l).find? (fun c => candArea c == (pickLargestAux l (lg, m)).2) := by
  induction l with
  | nil => intro lg m h; exact absurd h (lt_irrefl m)
  | cons c t ih =>
    intro lg m hlt
    by_cases hr : c.raises = true
    · have haux : pickLargestAux (c :: t) (lg, m) = pickLargestAux t (lg, m) := by
        simp [pickLargestAux, hr]
      have hlive : liveCands (c :: t) = liveCands t := by
        simp [liveCands, List.filter_cons, hr]
      rw [haux] at hlt ⊢
      rw [hlive]
      exact ih lg m hlt
    · have hlive : liveCands (c :: t) = c :: liveCands t := by
        simp [liveCands, List.filter_cons, hr]
      by_cases hgt : candArea c > m
      · have haux : pickLargestAux (c :: t) (lg, m) = pickLargestAux t (some c, candArea c) := by
          simp [pickLargestAux, hr, hgt]
        rw [haux] at hlt ⊢
        rw [hlive]
        by_cases heq : candArea c = (pickLargestAux t (some c, candArea c)).2
        · rw [List.find?_cons_of_pos _ (by simp only [beq_iff_eq]; exact heq)]
          have hall : ∀ x ∈ liveCands t, candArea x ≤ candArea c := by
            intro x hx
            have hle := foldl_max_le_elem (liveCands t) (candArea c) x hx
            rw [← pickLargestAux_snd t (some c) (candArea c), ← heq] at hle
            exact hle
          rw [show pickLargestAux t (some c, candArea c) = (some c, candArea c) from
            pickLargestAux_fixed t (some c) (candArea c) hall]
        · rw [List.find?_cons_of_neg _ (by simp only [beq_iff_eq]; exact heq)]
          have hle : candArea c ≤ (pickLargestAux t (some c, candArea c)).2 := by
            rw [pickLargestAux_snd]
            exact foldl_max_init _ _
          exact ih (some c) (candArea c) (lt_of_le_of_ne hle heq)
      · have haux : pickLargestAux (c :: t) (lg, m) = pickLargestAux t (lg, m) := by
          simp [pickLargestAux, hr, hgt]
        rw [haux] at hlt ⊢
        rw [hlive]
        have hne : candArea c ≠ (pickLargestAux t (lg, m)).2 := by
          have : candArea c ≤ m := Nat.le_of_not_lt hgt
          omega
        rw [List.find?_cons_of_neg _ (by simp only [beq_iff_eq]; exact hne)]
        exact ih lg m hlt

lemma pickLargest_snd (st : List Cand) : (pickLargest st).2 = maxAreaOf st :=
  pickLargestAux_snd st none 0

lemma resolveElem_eq_spec (sts : List (List Cand)) : resolveElem sts = resolveSpecElem sts := by
  induction sts with
  | nil => rfl
  | cons st rest ih =>
    by_cases hm : maxAreaOf st > 40000
    · have hsnd : (pickLargest st).2 = maxAreaOf st := pickLargest_snd st
      have h0 : (0 : Nat) < (pickLargest st).2 := by omega
      have hfst := pickLargestAux_fst st none 0 h0
      obtain ⟨c, hc, hceq⟩ : ∃ c ∈ liveCands st, candArea c = maxAreaOf st := by
        rcases foldl_max_attained (liveCands st) 0 with h | ⟨c, hc, h⟩
        · exfalso
          have : maxAreaOf st = 0 := h
          omega
        · exact ⟨c, hc, h.symm⟩
      obtain ⟨c', hfind⟩ : ∃ c', (liveCands st).find?
          (fun x => candArea x == maxAreaOf st) = some c' := by
        rw [← Option.isSome_iff_exists, List.find?_isSome]
        exact ⟨c, hc, by simp [hceq]⟩
      have hfst' : (pickLargest st).1 = some c' := by
        have h1 : (pickLargest st).1 =
            (liveCands st).find? (fun x => candArea x == (pickLargest st).2) := hfst
        rw [h1, hsnd]
        exact hfind
      have hcode : resolveElem (st :: rest) = some c' := by
        unfold resolveElem
        dsimp only
        rw [hfst']
        simp only [hsnd]
        rw [if_pos hm]
      have hspec : resolveSpecElem (st :: rest) = some c' := by
        unfold resolveSpecElem
        rw [List.find?_cons_of_pos _ (by simp [hm])]
        exact hfind
      rw [hcode, hspec]
    · have hsnd : (pickLargest st).2 = maxAreaOf st := pickLargest_snd st
      have hspec : resolveSpecElem (st :: rest) = resolveSpecElem rest := by
        unfold resolveSpecElem
        rw [List.find?_cons_of_neg _ (by simp [hm])]
      have hcode : resolveElem (st :: rest) = resolveElem rest := by
        conv_lhs => rw [resolveElem]
        rcases hfst : (pickLargest st).1 with _ | c
        · rfl
        · show (if (pickLargest st).2 > 40000 then some c else resolveElem rest) = _
          rw [hsnd, if_neg hm]
      rw [hcode, hspec, ih]

/-- C8: the implemented two-level resolution heuristic coincides exactly
with the one described by the spec — fixed strategy priority order, largest
candidate by (attribute-or-box) area within a strategy, first strategy whose
largest candidate exceeds the 40000 minimum-area floor, and NotFound when no
strategy qualifies or the chosen source locator is empty or a `data:`
payload. -/
theorem C8_resolver_refinement :
    (∀ sts : List (List Cand), resolveElem sts = resolveSpecElem sts) ∧
    (∀ sts : List (List Cand), resolveFull sts = resolveSpecFull sts) := by
  refine ⟨resolveElem_eq_spec, fun sts => ?_⟩
  unfold resolveFull resolveSpecFull
  rw [resolveElem_eq_spec]
  rcases resolveSpecElem sts with _ | c
  · rfl
  · rcases c.src with _ | u <;> rfl

/-! ### Stopping-policy characterization -/

lemma ecAfter_nil (ec : Nat) : ecAfter ec [] = ec := rfl

lemma ecAfter_zero_cons (ec : Nat) (tr : List Nat) :
    ecAfter ec (0 :: tr) = ecAfter (ec + 1) tr := by
  simp [ecAfter]

lemma ecAfter_pos_cons (ec c : Nat) (tr : List Nat) (h : c ≠ 0) :
    ecAfter ec (c :: tr) = ecAfter 0 tr := by
  simp [ecAfter, h]

lemma runLoop_no_limit_spec (envF : String → ItemEnv)
    (pages : Nat → List (Option String)) :
    ∀ (n i ec : Nat) (s : RunState), ec < 10 →
      (runLoop none envF pages n i ec s).2.1 = (runLoop none envF pages n i ec s).2.2.length ∧
      (runLoop none envF pages n i ec s).2.1 ≤ n ∧
      ecAfter ec (runLoop none envF pages n i ec s).2.2 ≤ 10 ∧
      ((runLoop none envF pages n i ec s).2.1 < n →
        ecAfter ec (runLoop none envF pages n i ec s).2.2 = 10) ∧
      (∀ p q, (runLoop none envF pages n i ec s).2.2 = p ++ q → q ≠ [] →
        ecAfter ec p < 10) := by
  intro n
  induction n with
  | zero =>
    intro i ec s hec
    refine ⟨rfl, le_refl 0, by simpa [runLoop, ecAfter_nil] using Nat.le_of_lt hec, ?_, ?_⟩
    · intro h; exact absurd h (by simp [runLoop])
    · intro p q hpq hq
      rw [show (runLoop none envF pages 0 i ec s).2.2 = [] from rfl] at hpq
      rcases List.append_eq_nil.mp hpq.symm with ⟨_, h2⟩
      exact absurd h2 hq
  | succ n ih =>
    intro i ec s hec
    rw [runLoop]
    dsimp only
    simp only [show limitHit none s.downloaded_count = false from rfl, Bool.false_eq_true,
      if_false]
    set s1 := { s with trace := s.trace ++ [Ev.limitCheck] } with hs1def
    set new := newLinks s1 (discover (pages i)) with hnewdef
    by_cases hnew : new.isEmpty = true
    · rw [if_pos hnew]
      by_cases h10 : ec + 1 ≥ 10
      · rw [if_pos h10]
        dsimp only
        refine ⟨rfl, by omega, ?_, ?_, ?_⟩
        · rw [ecAfter_zero_cons, ecAfter_nil]; omega
        · intro _; rw [ecAfter_zero_cons, ecAfter_nil]; omega
        · intro p q hpq hq
          rcases p with _ | ⟨x, p'⟩
          · rw [ecAfter_nil]; omega
          · rcases List.cons_eq_cons.mp hpq with ⟨hx, htl⟩
            rcases List.append_eq_nil.mp htl.symm with ⟨_, h2⟩
            exact absurd h2 hq
      · rw [if_neg h10]
        dsimp only
        have hih := ih (i + 1) (ec + 1) s1 (by omega)
        refine ⟨?_, ?_, ?_, ?_, ?_⟩
        · simp [hih.1]
        · have h2 := hih.2.1; omega
        · rw [ecAfter_zero_cons]; exact hih.2.2.1
        · intro hlt
          rw [ecAfter_zero_cons]
          exact hih.2.2.2.1 (by omega)
        · intro p q hpq hq
          rcases p with _ | ⟨x, p'⟩
          · rw [ecAfter_nil]; omega
          · rcases List.cons_eq_cons.mp hpq with ⟨rfl, htl⟩
            rw [ecAfter_zero_cons]
            exact hih.2.2.2.2 p' q htl hq
    · rw [if_neg hnew]
      have hih := ih (i + 1) 0 (runBatch none envF new s1) (by omega)
      have hlen : new.length ≠ 0 := by
        intro h
        rw [List.length_eq_zero] at h
        simp [h] at hnew
      dsimp only
      refine ⟨?_, ?_, ?_, ?_, ?_⟩
      · simp [hih.1]
      · have h2 := hih.2.1; omega
      · rw [ecAfter_pos_cons _ _ _ hlen]; exact hih.2.2.1
      · intro hlt
        rw [ecAfter_pos_cons _ _ _ hlen]
        exact hih.2.2.2.1 (by omega)
      · intro p q hpq hq
        rcases p with _ | ⟨x, p'⟩
        · rw [ecAfter_nil]; omega
        · rcases List.cons_eq_cons.mp hpq with ⟨rfl, htl⟩
          rw [ecAfter_pos_cons _ _ _ hlen]
          exact hih.2.2.2.2 p' q htl hq

/-- C4: the empty-counter stopping policy, for a run without a download
limit.  The run returns the per-iteration new-link counts; folding the
counter update (`ecAfter`, increment on zero, reset on non-zero) over them
gives the `no_new_photos_count` of the source.  The iteration count equals
the number of discovery iterations, never exceeds the budget, the counter
never exceeds 10, discovery stops before the budget is exhausted exactly
when the counter has just reached 10, and at no earlier point of the run
had the counter already reached 10 (so the exit happens at the first of the
two conditions). -/
theorem C4_stopping_policy (folder : List (String × List Nat)) (resume : Bool)
    (envF : String → ItemEnv) (pages : Nat → List (Option String)) (max_scrolls : Nat) :
    (scrape_photos_selenium folder resume none envF pages max_scrolls).2.1 =
      (scrape_photos_selenium folder resume none envF pages max_scrolls).2.2.length ∧
    (scrape_photos_selenium folder resume none envF pages max_scrolls).2.1 ≤ max_scrolls ∧
    ecAfter 0 (scrape_photos_selenium folder resume none envF pages max_scrolls).2.2 ≤ 10 ∧
    ((scrape_photos_selenium folder resume none envF pages max_scrolls).2.1 < max_scrolls →
      ecAfter 0 (scrape_photos_selenium folder resume none envF pages max_scrolls).2.2 = 10) ∧
    (∀ p q,
      (scrape_photos_selenium folder resume none envF pages max_scrolls).2.2 = p ++ q →
      q ≠ [] → ecAfter 0 p < 10) :=
  runLoop_no_limit_spec envF pages max_scrolls 0 0 (initState folder) (by omega)

/-- Witness for `C4_stopping_policy`: on a gallery that never exposes a
link, a 15-iteration budget stops with the empty counter at exactly 10. -/
theorem C4_stopping_policy_witness :
    ecAfter 0 (scrape_photos_selenium [] false none
      (fun _ => happyEnv "i/a.jpg" demoBytes) (fun _ => []) 15).2.2 = 10 :=
  (C4_stopping_policy [] false (fun _ => happyEnv "i/a.jpg" demoBytes)
    (fun _ => []) 15).2.2.2.1 (by decide)

/-! ### Seen-set single-processing invariant -/

lemma marksOf_append (a b : List Ev) : marksOf (a ++ b) = marksOf a ++ marksOf b := by
  simp [marksOf, List.filterMap_append]

lemma processBody_marks_processed (e : ItemEnv) (u : String) (s : RunState) :
    marksOf (processBody e u s).trace = marksOf s.trace ∧
      (processBody e u s).processed_urls = s.processed_urls := by
  unfold processBody restoreCont exceptHandler failInc skipInc dlInc
  dsimp only
  repeat' split
  all_goals constructor
  all_goals simp [marksOf_append, marksOf, List.append_assoc]

lemma processLink_marks (limit : Option Nat) (e : ItemEnv) (u : String) (s : RunState) :
    marksOf ((processLink limit e u s).1).trace = marksOf s.trace ++ [u] ∧
      ((processLink limit e u s).1).processed_urls = s.processed_urls.insert u := by
  unfold processLink
  dsimp only
  split
  · constructor
    · simp [marksOf_append, marksOf]
    · rfl
  · obtain ⟨hm, hp⟩ := processBody_marks_processed e u
      { s with processed_urls := s.processed_urls.insert u,
               trace := s.trace ++ [Ev.processMark u, Ev.limitCheck] }
    constructor
    · rw [hm]; simp [marksOf_append, marksOf]
    · rw [hp]

lemma runBatch_marks (limit : Option Nat) (envF : String → ItemEnv) :
    ∀ (links : List String) (s : RunState), links.Nodup →
      (∀ u ∈ links, u ∉ s.processed_urls) →
      (marksOf s.trace).Nodup →
      (∀ v ∈ marksOf s.trace, v ∈ s.processed_urls) →
      (marksOf (runBatch limit envF links s).trace).Nodup ∧
        (∀ v ∈ marksOf (runBatch limit envF links s).trace,
          v ∈ (runBatch limit envF links s).processed_urls) := by
  intro links
  induction links with
  | nil => intro s _ _ h1 h2; exact ⟨h1, h2⟩
  | cons u rest ih =>
    intro s hnd hfresh h1 h2
    obtain ⟨hm, hp⟩ := processLink_marks limit (envF u) u s
    have hnd' : (marksOf (processLink limit (envF u) u s).1.trace).Nodup := by
      rw [hm]
      refine h1.append (List.nodup_singleton u) ?_
      intro a ha hau
      rw [List.mem_singleton] at hau
      subst hau
      exact hfresh a (List.mem_cons_self a rest) (h2 a ha)
    have hmem' : ∀ v ∈ marksOf (processLink limit (envF u) u s).1.trace,
        v ∈ (processLink limit (envF u) u s).1.processed_urls := by
      rw [hm, hp]
      intro v hv
      rcases List.mem_append.mp hv with h | h
      · exact List.mem_insert_of_mem (h2 v h)
      · rw [List.mem_singleton] at h
        subst h
        exact List.mem_insert_self v s.processed_urls
    rw [runBatch]
    split
    · exact ⟨hnd', hmem'⟩
    · refine ih (processLink limit (envF u) u s).1 (List.Nodup.of_cons hnd) ?_ hnd' hmem'
      intro v hv hvmem
      rw [hp] at hvmem
      rcases List.mem_insert_iff.mp hvmem with h | h
      · subst h
        exact (List.nodup_cons.mp hnd).1 hv
      · exact hfresh v (List.mem_cons_of_mem u hv) h

lemma mem_dedupFirstAux : ∀ (l seen : List String) (y : String),
    y ∈ dedupFirstAux seen l → seen.contains y = false := by
  intro l
  induction l with
  | nil => intro seen y hy; exact absurd hy (List.not_mem_nil y)
  | cons x xs ih =>
    intro seen y hy
    rw [dedupFirstAux] at hy
    by_cases h : seen.contains x = true
    · rw [if_pos h] at hy
      exact ih seen y hy
    · rw [if_neg h] at hy
      rcases List.mem_cons.mp hy with rfl | hmem
      · simp only [Bool.not_eq_true] at h
        exact h
      · have h2 : y ∉ x :: seen := by simpa using ih (x :: seen) y hmem
        have h3 : y ∉ seen := fun hm => h2 (List.mem_cons_of_mem x hm)
        simpa using h3

lemma dedupFirstAux_nodup : ∀ (l seen : List String), (dedupFirstAux seen l).Nodup := by
  intro l
  induction l with
  | nil => intro seen; exact List.nodup_nil
  | cons x xs ih =>
    intro seen
    rw [dedupFirstAux]
    by_cases h : seen.contains x = true
    · rw [if_pos h]; exact ih seen
    · rw [if_neg h]
      refine List.nodup_cons.mpr ⟨?_, ih (x :: seen)⟩
      intro hmem
      have hc := mem_dedupFirstAux xs (x :: seen) x hmem
      simp at hc

lemma discover_nodup (hrefs : List (Option String)) : (discover hrefs).Nodup :=
  dedupFirstAux_nodup _ []

lemma runLoop_marks (limit : Option Nat) (envF : String → ItemEnv)
    (pages : Nat → List (Option String)) :
    ∀ (n i ec : Nat) (s : RunState),
      (marksOf s.trace).Nodup →
      (∀ v ∈ marksOf s.trace, v ∈ s.processed_urls) →
      (marksOf (runLoop limit envF pages n i ec s).1.trace).Nodup ∧
        (∀ v ∈ marksOf (runLoop limit envF pages n i ec s).1.trace,
          v ∈ (runLoop limit envF pages n i ec s).1.processed_urls) := by
  intro n
  induction n with
  | zero => intro i ec s h1 h2; exact ⟨h1, h2⟩
  | succ n ih =>
    intro i ec s h1 h2
    rw [runLoop]
    dsimp only
    set s1 := { s with trace := s.trace ++ [Ev.limitCheck] } with hs1def
    have h1' : (marksOf s1.trace).Nodup := by
      rw [hs1def]; simpa [marksOf_append, marksOf] using h1
    have h2' : ∀ v ∈ marksOf s1.trace, v ∈ s1.processed_urls := by
      rw [hs1def]; simpa [marksOf_append, marksOf] using h2
    split
    · exact ⟨h1', h2'⟩
    · set new := newLinks s1 (discover (pages i)) with hnewdef
      split
      · split
        · exact ⟨h1', h2'⟩
        · exact ih (i + 1) (ec + 1) s1 h1' h2'
      · have hbatch := runBatch_marks limit envF new s1
          ((discover_nodup (pages i)).filter _)
          (by
            intro v hv
            have hcond := List.of_mem_filter hv
            simp only [Bool.not_eq_true'] at hcond
            simpa using hcond)
          h1' h2'
        exact ih (i + 1) 0 (runBatch limit envF new s1) hbatch.1 hbatch.2

/-- C6: every new link is added to the session seen-set before any
inspection, fetching or storing begins (the seen-set after any per-link
step is the insertion of the link, whatever the outcome), and consequently
no link is ever processed twice within one run: the processed-mark events
of any full run carry pairwise-distinct URLs. -/
theorem C6_seen_set_once :
    (∀ (limit : Option Nat) (e : ItemEnv) (u : String) (s : RunState),
        ((processLink limit e u s).1).processed_urls = s.processed_urls.insert u) ∧
    (∀ (folder : List (String × List Nat)) (resume : Bool) (limit : Option Nat)
        (envF : String → ItemEnv) (pages : Nat → List (Option String)) (ms : Nat),
        (marksOf (scrape_photos_selenium folder resume limit envF pages ms).1.trace).Nodup) := by
  constructor
  · intro limit e u s
    exact (processLink_marks limit e u s).2
  · intro folder resume limit envF pages ms
    exact (runLoop_marks limit envF pages ms 0 0 (initState folder) (by simp [initState, marksOf])
      (by simp [initState, marksOf])).1

/-! ### Limit enforcement -/

lemma limitHit_some_false (N d : Nat) (h : d < N) : limitHit (some N) d = false := by
  unfold limitHit
  simp [Nat.not_le.mpr h]

lemma limitHit_some_true (N d : Nat) (hN : N ≠ 0) (h : N ≤ d) : limitHit (some N) d = true := by
  unfold limitHit
  simp [hN, h]

lemma earlySkip_false_of (ids : List String) (u pid : String)
    (hf : fbidOf u = some pid) (h : pid ∉ ids) : earlySkip ids u = false := by
  unfold earlySkip
  rw [hf]
  simpa using h

lemma photoIdOf_fbid (u src : String) (d : Nat) (pid : String)
    (h : fbidOf u = some pid) : photoIdOf u src d = pid := by
  unfold photoIdOf
  rw [h]

lemma any_name_false (files : List (String × List Nat)) (name : String)
    (h : name ∉ files.map Prod.fst) : (files.any fun p => p.1 == name) = false := by
  rw [List.any_eq_false]
  intro p hp
  simp only [beq_iff_eq]
  intro heq
  exact h (heq ▸ List.mem_map_of_mem Prod.fst hp)

lemma processLink_break (limit : Option Nat) (e : ItemEnv) (u : String) (s : RunState)
    (h : limitHit limit s.downloaded_count = true) :
    processLink limit e u s =
      ({ s with processed_urls := s.processed_urls.insert u,
                trace := s.trace ++ [Ev.processMark u, Ev.limitCheck] }, true) := by
  unfold processLink
  dsimp only
  rw [if_pos h]

lemma runBatch_good (envF : String → ItemEnv) (N : Nat) (hN : 1 ≤ N)
    (pidF srcF : String → String) (bF : String → List Nat) :
    ∀ (links : List String) (s : RunState),
      (∀ u ∈ links, GoodEnv (envF u) (srcF u) (bF u)) →
      (∀ u ∈ links, fbidOf u = some (pidF u)) →
      (links.map pidF).Nodup →
      (∀ u ∈ links, pidF u ∉ s.existing_ids) →
      (links.map (fun u => pidF u ++ extOf (srcF u))).Nodup →
      (∀ u ∈ links, (pidF u ++ extOf (srcF u)) ∉ s.files.map Prod.fst) →
      s.downloaded_count ≤ N →
      (runBatch (some N) envF links s).downloaded_count =
          min N (s.downloaded_count + links.length) ∧
        (runBatch (some N) envF links s).trace =
          s.trace ++ expectedTrace (fun u => pidF u ++ extOf (srcF u)) N
            s.downloaded_count links := by
  intro links
  induction links with
  | nil =>
    intro s _ _ _ _ _ _ hd
    constructor
    · simp [runBatch]
      omega
    · simp [runBatch, expectedTrace]
  | cons u rest ih =>
    intro s hgood hpid hpidN hpidFresh hnameN hnameFresh hd
    have hmem : u ∈ u :: rest := List.mem_cons_self u rest
    by_cases hNd : N ≤ s.downloaded_count
    · have hbreak := processLink_break (some N) (envF u) u s
        (limitHit_some_true N _ (by omega) hNd)
      rw [runBatch, hbreak]
      dsimp only
      simp only [eq_self_iff_true, if_true]
      constructor
      · simp
        omega
      · rw [expectedTrace]
        rw [if_pos hNd]
    · have hdlt : s.downloaded_count < N := by omega
      obtain ⟨hnav, hrest, hres, hfetch, hblen⟩ := hgood u hmem
      have hpidu := hpid u hmem
      have hpideq : photoIdOf u (srcF u) s.downloaded_count = pidF u :=
        photoIdOf_fbid u (srcF u) _ (pidF u) hpidu
      have heq := processLink_good_eq (some N) (envF u) u (srcF u) (bF u) s
        (limitHit_some_false N _ hdlt)
        (earlySkip_false_of _ u (pidF u) hpidu (hpidFresh u hmem))
        hnav hres
        (by rw [hpideq]; exact any_name_false s.files _ (hnameFresh u hmem))
        hfetch hrest (by omega)
      rw [hpideq] at heq
      rw [runBatch, heq]
      dsimp only
      simp only [Bool.false_eq_true, if_false]
      have hih := ih
        { s with
            processed_urls := s.processed_urls.insert u,
            downloaded_count := s.downloaded_count + 1,
            existing_ids := s.existing_ids.insert (pidF u),
            files := s.files ++ [(pidF u ++ extOf (srcF u), bF u)],
            ctx := Ctx.gallery,
            trace := s.trace ++ [Ev.processMark u, Ev.limitCheck, Ev.fetchAttempt,
              Ev.write (pidF u ++ extOf (srcF u)), Ev.downloadedInc] }
        (fun v hv => hgood v (List.mem_cons_of_mem u hv))
        (fun v hv => hpid v (List.mem_cons_of_mem u hv))
        (by simpa using (List.nodup_cons.mp (by simpa using hpidN)).2)
        (by
          intro v hv
          dsimp only
          rw [List.mem_insert_iff]
          rintro (h | h)
          · have : pidF u ∈ rest.map pidF := h ▸ List.mem_map_of_mem pidF hv
            exact (List.nodup_cons.mp (by simpa using hpidN)).1 this
          · exact hpidFresh v (List.mem_cons_of_mem u hv) h)
        (by simpa using (List.nodup_cons.mp (by simpa using hnameN)).2)
        (by
          intro v hv
          dsimp only
          rw [List.map_append, List.mem_append]
          rintro (h | h)
          · exact hnameFresh v (List.mem_cons_of_mem u hv) h
          · simp only [List.map_cons, List.map_nil, List.mem_singleton] at h
            have : (pidF u ++ extOf (srcF u)) ∈ rest.map (fun w => pidF w ++ extOf (srcF w)) :=
              h ▸ List.mem_map_of_mem _ hv
            exact (List.nodup_cons.mp (by simpa using hnameN)).1 this)
        (by dsimp only; omega)
      constructor
      · rw [hih.1]
        dsimp only
        simp only [List.length_cons]
        omega
      · rw [hih.2]
        dsimp only
        rw [expectedTrace, if_neg (by omega : ¬ N ≤ s.downloaded_count)]
        simp [List.append_assoc]

lemma expectedTrace_counts (nameF : String → String) (N : Nat) :
    ∀ (links : List String) (d : Nat), d ≤ N →
      (expectedTrace nameF N d links).count Ev.downloadedInc = min N (d + links.length) - d ∧
      (expectedTrace nameF N d links).count Ev.fetchAttempt = min N (d + links.length) - d := by
  intro links
  induction links with
  | nil =>
    intro d hd
    constructor <;> simp [expectedTrace]
  | cons u rest ih =>
    intro d hd
    rw [expectedTrace]
    by_cases h : N ≤ d
    · rw [if_pos h]
      have h1 : ([Ev.processMark u, Ev.limitCheck] : List Ev).count Ev.downloadedInc = 0 := rfl
      have h2 : ([Ev.processMark u, Ev.limitCheck] : List Ev).count Ev.fetchAttempt = 0 := rfl
      rw [h1, h2]
      constructor <;> omega
    · rw [if_neg h]
      have hih := ih (d + 1) (by omega)
      constructor
      · rw [List.count_append, hih.1]
        have hb : ([Ev.processMark u, Ev.limitCheck, Ev.fetchAttempt, Ev.write (nameF u),
            Ev.downloadedInc] : List Ev).count Ev.downloadedInc = 1 := rfl
        rw [hb]
        simp only [List.length_cons]
        omega
      · rw [List.count_append, hih.2]
        have hb : ([Ev.processMark u, Ev.limitCheck, Ev.fetchAttempt, Ev.write (nameF u),
            Ev.downloadedInc] : List Ev).count Ev.fetchAttempt = 1 := rfl
        rw [hb]
        simp only [List.length_cons]
        omega

lemma expectedTrace_fsc0 (nameF : String → String) (N : Nat) :
    ∀ (links : List String) (d : Nat),
      List.foldl fscStep (some 0) (expectedTrace nameF N d links) = some 0 := by
  intro links
  induction links with
  | nil => intro d; rfl
  | cons u rest ih =>
    intro d
    rw [expectedTrace]
    by_cases h : N ≤ d
    · rw [if_pos h]; rfl
    · rw [if_neg h]
      rw [List.foldl_append]
      exact ih (d + 1)

lemma expectedTrace_fsc (nameF : String → String) (N : Nat) (links : List String) (d : Nat)
    (acc : Option Nat) (hne : links ≠ []) (hd : d < N) :
    List.foldl fscStep acc (expectedTrace nameF N d links) = some 0 := by
  cases links with
  | nil => exact absurd rfl hne
  | cons u rest =>
    rw [expectedTrace, if_neg (by omega : ¬ N ≤ d)]
    rw [List.foldl_append]
    exact expectedTrace_fsc0 nameF N rest (d + 1)

lemma newLinks_empty_processed (s : RunState) (links : List String)
    (h : s.processed_urls = []) : newLinks s links = links := by
  unfold newLinks
  rw [h]
  exact List.filter_eq_self.mpr fun x _ => rfl

lemma post_batch_loop (N : Nat) (envF : String → ItemEnv)
    (pages : Nat → List (Option String)) (m i : Nat) (s : RunState)
    (h : N ≤ s.downloaded_count) (hN : N ≠ 0) :
    (runLoop (some N) envF pages m i 0 s).1.downloaded_count = s.downloaded_count ∧
      ∃ extra : List Ev, (runLoop (some N) envF pages m i 0 s).1.trace = s.trace ++ extra ∧
        extra.count Ev.downloadedInc = 0 ∧ extra.count Ev.fetchAttempt = 0 ∧
        List.foldl fscStep (some 0) extra = some 0 := by
  cases m with
  | zero =>
    exact ⟨rfl, [], (List.append_nil s.trace).symm, rfl, rfl, rfl⟩
  | succ m' =>
    rw [runLoop]
    dsimp only
    rw [show limitHit (some N) s.downloaded_count = true from limitHit_some_true N _ hN h]
    exact ⟨rfl, [Ev.limitCheck], rfl, rfl, rfl, rfl⟩

/-- C3 amended: with download limit `N ≥ 1` and a first discovery iteration
exposing at least `N` distinct resolvable items (fresh `fbid` ids, valid
bodies), the run commits exactly `N` downloads, attempts exactly `N`
fetches, and attempts no fetch after the last committed download — the
limit check running before each scroll iteration and before each link is
sufficient, even though no check separates a download's completion from its
commit. -/
theorem C3_amended_limit_enforcement
    (N max_scrolls : Nat) (links : List String)
    (envF : String → ItemEnv) (pages : Nat → List (Option String))
    (pidF srcF : String → String) (bF : String → List Nat)
    (hN : 1 ≤ N) (hM : 1 ≤ max_scrolls)
    (hdisc : discover (pages 0) = links)
    (hlen : N ≤ links.length)
    (hgood : ∀ u ∈ links, GoodEnv (envF u) (srcF u) (bF u))
    (hpid : ∀ u ∈ links, fbidOf u = some (pidF u))
    (hpidN : (links.map pidF).Nodup)
    (hnameN : (links.map (fun u => pidF u ++ extOf (srcF u))).Nodup) :
    (scrape_photos_selenium [] false (some N) envF pages max_scrolls).1.downloaded_count = N ∧
    (scrape_photos_selenium [] false (some N) envF pages
        max_scrolls).1.trace.count Ev.downloadedInc = N ∧
    (scrape_photos_selenium [] false (some N) envF pages
        max_scrolls).1.trace.count Ev.fetchAttempt = N ∧
    fetchesAfterLastCommit
      (scrape_photos_selenium [] false (some N) envF pages max_scrolls).1.trace = 0 := by
  obtain ⟨m, rfl⟩ : ∃ m, max_scrolls = m + 1 := ⟨max_scrolls - 1, by omega⟩
  have hrun : scrape_photos_selenium [] false (some N) envF pages (m + 1) =
      runLoop (some N) envF pages (m + 1) 0 0 (initState []) := rfl
  rw [hrun, runLoop]
  dsimp only
  rw [show limitHit (some N) (initState ([] : List (String × List Nat))).downloaded_count
    = false from limitHit_some_false N 0 (by omega)]
  simp only [Bool.false_eq_true, if_false]
  rw [hdisc]
  rw [newLinks_empty_processed _ links rfl]
  have hlinks_ne : links ≠ [] := by
    intro h
    rw [h] at hlen
    simp at hlen
    omega
  have hempty : links.isEmpty = false := by
    cases links with
    | nil => exact absurd rfl hlinks_ne
    | cons a l => rfl
  rw [hempty]
  simp only [Bool.false_eq_true, if_false]
  set s1 : RunState := { initState [] with
    trace := (initState ([] : List (String × List Nat))).trace ++ [Ev.limitCheck] } with hs1
  have hbatch := runBatch_good envF N hN pidF srcF bF links s1
    hgood hpid hpidN
    (fun u _ h => absurd h (List.not_mem_nil _))
    hnameN
    (fun u _ h => absurd h (List.not_mem_nil _))
    (Nat.zero_le N)
  have hs1d : s1.downloaded_count = 0 := rfl
  have hs1t : s1.trace = [Ev.limitCheck] := rfl
  rw [hs1d, hs1t] at hbatch
  have hdl : (runBatch (some N) envF links s1).downloaded_count = N := by
    rw [hbatch.1]
    omega
  have hpost := post_batch_loop N envF pages m 1 (runBatch (some N) envF links s1)
    (by omega) (by omega)
  obtain ⟨extra, hextra, hc1, hc2, hfsc⟩ := hpost.2
  refine ⟨?_, ?_, ?_, ?_⟩
  · rw [hpost.1, hdl]
  · rw [hextra, hbatch.2, List.count_append, List.count_append, hc1]
    rw [show ([Ev.limitCheck] : List Ev).count Ev.downloadedInc = 0 from rfl]
    rw [(expectedTrace_counts _ N links 0 (by omega)).1]
    omega
  · rw [hextra, hbatch.2, List.count_append, List.count_append, hc2]
    rw [show ([Ev.limitCheck] : List Ev).count Ev.fetchAttempt = 0 from rfl]
    rw [(expectedTrace_counts _ N links 0 (by omega)).2]
    omega
  · unfold fetchesAfterLastCommit
    rw [hextra, hbatch.2, List.foldl_append, List.foldl_append]
    rw [show List.foldl fscStep none ([Ev.limitCheck] : List Ev) = none from rfl]
    rw [expectedTrace_fsc _ N links 0 none hlinks_ne (by omega)]
    rw [hfsc]
    rfl

/-- Witness for `C3_amended_limit_enforcement`: limit 1, one resolvable
item — exactly one download, one fetch, no fetch after the commit. -/
theorem C3_amended_limit_enforcement_witness :
    (scrape_photos_selenium [] false (some 1) (fun _ => happyEnv "i/a.jpg" demoBytes)
        oneLinkPages 1).1.downloaded_count = 1 ∧
    (scrape_photos_selenium [] false (some 1) (fun _ => happyEnv "i/a.jpg" demoBytes)
        oneLinkPages 1).1.trace.count Ev.downloadedInc = 1 ∧
    (scrape_photos_selenium [] false (some 1) (fun _ => happyEnv "i/a.jpg" demoBytes)
        oneLinkPages 1).1.trace.count Ev.fetchAttempt = 1 ∧
    fetchesAfterLastCommit (scrape_photos_selenium [] false (some 1)
        (fun _ => happyEnv "i/a.jpg" demoBytes) oneLinkPages 1).1.trace = 0 :=
  C3_amended_limit_enforcement 1 1 ["/photo/?fbid=11"]
    (fun _ => happyEnv "i/a.jpg" demoBytes) oneLinkPages
    (fun _ => "11") (fun _ => "i/a.jpg") (fun _ => demoBytes)
    (le_refl 1) (le_refl 1) (by decide) (by decide)
    (by
      intro u hu
      rw [List.mem_singleton] at hu
      subst hu
      exact ⟨rfl, rfl, by decide, rfl, by simp [demoBytes]⟩)
    (by
      intro u hu
      rw [List.mem_singleton] at hu
      subst hu
      decide)
    (by simp) (by simp)

end Scraper
